import Mathlib

/-!
Shallow embedding of the window/tab synchronization and task-status engine of
`editor-tab-manager` (the `App` component, App.tsx): window snapshot
reconciliation against a persisted tab order, active-tab tracking with a click
debounce, and the Claude-status lifecycle (dismissal, auto-dismiss timer,
reset sequencing, notification gating).  Mutable refs and React state are
modelled as one explicit state record; each event handler becomes a pure
function from that state (plus the event payload and the results of external
queries) to a new state together with its observable outputs (emitted views,
notification requests, persisted-store writes, logged errors).
-/

/-- One externally-managed editor window, as reported by the backend
(the `EditorWindow` interface of App.tsx). -/
structure EditorWindow where
  id : Nat
  name : String
  path : String
deriving Repr, DecidableEq

/-- A full-replacement status map (the `Record<string, ClaudeStatus>` payload
of a `claude-status` event), modelled as an insertion-ordered association
list — the iteration order of `Object.entries`.  Status values are kept as
raw strings: the listener performs no runtime validation of them. -/
abbrev StatusMap := List (String × String)

/-- JS property read `m[path]` on a status object (`none` = `undefined`). -/
def statusOf : StatusMap → String → Option String
  | [], _ => none
  | e :: rest, p => if e.1 = p then some e.2 else statusOf rest p

/-- Model of `path.split("/").pop()`: the suffix of the string after its last
`'/'` (the whole string when no `'/'` occurs, `""` after a trailing slash). -/
def lastSegAux : List Char → List Char → List Char
  | [], acc => acc
  | c :: cs, acc => if c = '/' then lastSegAux cs [] else lastSegAux cs (acc ++ [c])

/-- Last path segment, see `lastSegAux`. -/
def lastSegment (p : String) : String :=
  String.mk (lastSegAux p.data [])

/-- Lexicographic three-way comparison of collation-weight lists. -/
def cmpWeights : List Nat → List Nat → Int
  | [], [] => 0
  | [], _ :: _ => -1
  | _ :: _, [] => 1
  | a :: as, b :: bs => if a < b then -1 else if b < a then 1 else cmpWeights as bs

/-- Primary collation weight of a character: its case-folded code point,
shifted by 1 so that 0 can serve as the key terminator. -/
def primaryWeight (c : Char) : Nat :=
  if c.isUpper then c.toNat + 33 else c.toNat + 1

/-- Case (tertiary) weight: at equal primary weights lowercase sorts before
uppercase, as in the ICU root collation. -/
def caseWeight (c : Char) : Nat :=
  if c.isUpper then 1 else 0

/-- Collation key of a string: primary weights, a 0 terminator, then case
weights, so that primary differences dominate and case only breaks ties. -/
def collationKey (s : String) : List Nat :=
  s.data.map primaryWeight ++ 0 :: s.data.map caseWeight

/-- Model of `String.prototype.localeCompare` under the default collation
(ICU root), restricted to ASCII: case-insensitive by code point first, ties
broken by case with lowercase first.  This is the tie-break comparison
`sortWindowsByOrder` actually uses; note it is *not* ordinal (code-point)
order: `"a".localeCompare("B") < 0` although `"B" < "a"` ordinally. -/
def localeCompare (a b : String) : Int :=
  cmpWeights (collationKey a) (collationKey b)

/-- Ordinal (code-point lexicographic) order on strings, the comparison the
specification's sort description refers to.  Defined from the spec's words,
for comparison with the `localeCompare`-based order used by the code. -/
def ordinalLe : List Char → List Char → Prop
  | [], _ => True
  | _ :: _, [] => False
  | a :: as, b :: bs => a < b ∨ (a = b ∧ ordinalLe as bs)

instance instDecidableOrdinalLe : (a b : List Char) → Decidable (ordinalLe a b)
  | [], _ => .isTrue trivial
  | _ :: _, [] => .isFalse fun h => h
  | a :: as, b :: bs =>
    have : Decidable (ordinalLe as bs) := instDecidableOrdinalLe as bs
    inferInstanceAs (Decidable (a < b ∨ (a = b ∧ ordinalLe as bs)))

/-- Decidable ordinal comparison packaged for strings. -/
def ordinalStringLe (a b : String) : Prop :=
  ordinalLe a.data b.data

instance (a b : String) : Decidable (ordinalStringLe a b) :=
  inferInstanceAs (Decidable (ordinalLe a.data b.data))

/-- Rank lookup `orderMap.get(name)` where
`orderMap = new Map(order.map((name, index) => [name, index]))`: the index of
the *last* occurrence of `name` in `order` (a later `Map.set` overwrites an
earlier one); `none` stands for the `?? Infinity` fallback. -/
def orderRankFrom (name : String) : List String → Nat → Option Nat
  | [], _ => none
  | n :: rest, i =>
    match orderRankFrom name rest (i + 1) with
    | some j => some j
    | none => if n = name then some i else none

/-- Rank of a name in the persisted order, see `orderRankFrom`. -/
def orderRank (order : List String) (name : String) : Option Nat :=
  orderRankFrom name order 0

/-- The comparator closure passed to `sort` inside `sortWindowsByOrder`:
`indexA - indexB` with a missing rank read as `Infinity`; when both ranks are
missing it falls back to `a.name.localeCompare(b.name)`.  The mixed cases
return `±1`, the signs the subtraction yields with one side `Infinity`. -/
def windowCompare (order : List String) (a b : EditorWindow) : Int :=
  match orderRank order a.name, orderRank order b.name with
  | none, none => localeCompare a.name b.name
  | none, some _ => 1
  | some _, none => -1
  | some i, some j => (i : Int) - (j : Int)

/-- `sortWindowsByOrder` (App.tsx lines 74-85): `[...windows].sort(cmp)`.
ES2019 requires `Array.prototype.sort` to be stable, and for a consistent
comparator its result is sorted by that comparator; a stable insertion sort
over `cmp a b ≤ 0` produces exactly that list. -/
def sortWindowsByOrder (windows : List EditorWindow) (order : List String) : List EditorWindow :=
  List.insertionSort (fun a b => windowCompare order a b ≤ 0) windows

/-- The mutable state of the `App` component relevant to the engine: React
state (`windows`, `activeIndex`, `claudeStatuses`) together with the refs
(`claudeStatusesRef`, `dismissedWaitingRef`, `waitingTimersRef`,
`tabOrderRef`, `orderLoadedRef`, `lastTabClickTimeRef`,
`notificationEnabledRef`, `isEditorActiveRef`).  React's deferred
`setState`/ref synchronization is modelled by taking each field at its value
once the handler (and its ref-sync effects) has completed. -/
structure AppState where
  windows : List EditorWindow
  activeIndex : Nat
  claudeStatuses : StatusMap
  claudeStatusesRef : StatusMap
  dismissedWaiting : List String
  waitingTimers : List (String × Nat)
  tabOrder : List String
  orderLoaded : Bool
  lastTabClickTime : Nat
  notificationEnabled : Bool
  isEditorActive : Bool
deriving Repr, DecidableEq

/-- `Set.add`: a JS `Set` keeps insertion order and ignores re-insertions. -/
def addToSet (s : List String) (p : String) : List String :=
  if p ∈ s then s else s ++ [p]

/-- `waitingTimersRef.current.delete(path)` (after `clearTimeout`). -/
def removeTimer (timers : List (String × Nat)) (p : String) : List (String × Nat) :=
  timers.filter (fun e => decide (e.1 ≠ p))

/-- The scan of `Object.entries(claudeStatusesRef.current)` inside
`syncWaitingTimerRef.current`: the first entry that is `"waiting"`, not
dismissed, and whose last path segment equals the active window's name. -/
def findWaitingEntry (raw : StatusMap) (dismissed : List String) (activeName : String) :
    Option (String × String) :=
  raw.find? (fun e => decide (e.2 = "waiting" ∧ e.1 ∉ dismissed ∧ lastSegment e.1 = activeName))

/-- `syncWaitingTimerRef.current` (App.tsx lines 128-160): cancel and clear
every pending timer; then, if there is an active window, arm a single 15000ms
timer for the first matching waiting path (the loop `break`s after one). -/
def syncWaitingTimer (s : AppState) : AppState :=
  match s.windows[s.activeIndex]? with
  | none => { s with waitingTimers := [] }
  | some aw =>
    match findWaitingEntry s.claudeStatusesRef s.dismissedWaiting aw.name with
    | some e => { s with waitingTimers := [(e.1, 15000)] }
    | none => { s with waitingTimers := [] }

/-- Body of the 15s timeout armed by `syncWaitingTimerRef.current` (App.tsx
lines 145-155), run when it fires: drop the timer handle; then, if the path is
still raw-`"waiting"`, add it to the dismissed set and delete it from the
rendered view; otherwise leave the rest of the state untouched. -/
def fireWaitingTimer (s : AppState) (path : String) : AppState :=
  let s1 := { s with waitingTimers := removeTimer s.waitingTimers path }
  if statusOf s1.claudeStatusesRef path = some "waiting" then
    { s1 with
      dismissedWaiting := addToSet s1.dismissedWaiting path
      claudeStatuses := s1.claudeStatuses.filter (fun e => decide (e.1 ≠ path)) }
  else s1

/-- A desktop-notification request, the payload of the fire-and-forget
`send_notification` command. -/
structure NotificationRequest where
  title : String
  projectPath : String
deriving Repr, DecidableEq

/-- `path.split("/").pop() || path`: the notification title. -/
def notifyTitle (path : String) : String :=
  if lastSegment path = "" then path else lastSegment path

/-- The sequence of rendered views a `claude-status` handler run emits: either
one `setClaudeStatuses` call, or — on a reset — an interim view followed,
after a fixed delay in milliseconds, by the final view. -/
inductive ViewEmission where
  | single (view : StatusMap)
  | reset (interim : StatusMap) (delayMs : Nat) (final : StatusMap)
deriving Repr, DecidableEq

/-- The view shown once every emission of the handler run has been applied. -/
def finalView : ViewEmission → StatusMap
  | .single v => v
  | .reset _ _ v => v

/-- Everything observable about one `claude-status` handler run. -/
structure StatusUpdateResult where
  state : AppState
  notifications : List NotificationRequest
  emission : ViewEmission
deriving Repr, DecidableEq

/-- The dismissed-set pruning loop of the `claude-status` listener (App.tsx
lines 677-681): keep a dismissed path only while the new map still reports it
as `"waiting"`. -/
def pruneDismissed (dismissed : List String) (newStatuses : StatusMap) : List String :=
  dismissed.filter (fun p => decide (statusOf newStatuses p = some "waiting"))

/-- The `filtered` map of the `claude-status` listener (App.tsx lines
683-690): the new map minus its `"waiting"` entries for dismissed paths. -/
def filterDismissed (newStatuses : StatusMap) (dismissed : List String) : StatusMap :=
  newStatuses.filter (fun e => decide (¬(e.2 = "waiting" ∧ e.1 ∈ dismissed)))

/-- The `completedPaths` of the listener: keys of `filtered` that are now
`"waiting"` but were `"generating"` in the previously stored raw map. -/
def completedPathsOf (filtered prev : StatusMap) : List String :=
  (filtered.map Prod.fst).filter
    (fun p => decide (statusOf filtered p = some "waiting" ∧ statusOf prev p = some "generating"))

/-- The `resetPaths` of the listener: keys of `filtered` that are now
`"generating"` but were `"waiting"` in the previously stored raw map. -/
def resetPathsOf (filtered prev : StatusMap) : List String :=
  (filtered.map Prod.fst).filter
    (fun p => decide (statusOf filtered p = some "generating" ∧ statusOf prev p = some "waiting"))

/-- The `claude-status` listener (App.tsx lines 671-738), modelled to
completion including the deferred 150ms `setClaudeStatuses(filtered)`
callback: prune the dismissed set (keep a path only while the new map still
reports it `"waiting"`), filter dismissed `"waiting"` entries out of the new
map, send notifications for `generating → waiting` transitions when enabled
and the editor is backgrounded, store the raw map, resynchronize the
auto-dismiss timer, and emit the view — in two steps when some path underwent
a `waiting → generating` reset. -/
def handleClaudeStatus (s : AppState) (newStatuses : StatusMap) : StatusUpdateResult :=
  let prev := s.claudeStatusesRef
  let dismissed1 := pruneDismissed s.dismissedWaiting newStatuses
  let filtered := filterDismissed newStatuses dismissed1
  let completedPaths := completedPathsOf filtered prev
  let notifications :=
    if completedPaths.length > 0 ∧ s.notificationEnabled = true ∧ s.isEditorActive = false then
      completedPaths.map (fun p => NotificationRequest.mk (notifyTitle p) p)
    else []
  let s1 := { s with claudeStatusesRef := newStatuses, dismissedWaiting := dismissed1 }
  let s2 := syncWaitingTimer s1
  let resetPaths := resetPathsOf filtered prev
  let emission :=
    if resetPaths.length > 0 then
      ViewEmission.reset (filtered.filter (fun e => decide (e.1 ∉ resetPaths))) 150 filtered
    else ViewEmission.single filtered
  ⟨{ s2 with claudeStatuses := filtered }, notifications, emission⟩

/-- `handleTabClick` (App.tsx lines 462-504): ignore a click on the already
active tab; otherwise record the click timestamp, set the active index and —
when the clicked window and a bundle id exist — dismiss that window's waiting
badge, cancel every pending timer, and issue the fire-and-forget focus
command (returned as the clicked window's id). -/
def handleTabClick (s : AppState) (index : Nat) (now : Nat) (bundleIdPresent : Bool) :
    AppState × Option Nat :=
  if index = s.activeIndex then (s, none)
  else
    let s1 := { s with lastTabClickTime := now, activeIndex := index }
    match s1.windows[index]? with
    | none => (s1, none)
    | some w =>
      if bundleIdPresent = false then (s1, none)
      else
        let waitingKey := (s1.claudeStatusesRef.find?
          (fun e => decide (e.2 = "waiting" ∧ lastSegment e.1 = w.name))).map Prod.fst
        let s2 :=
          match waitingKey with
          | some key =>
            { s1 with
              dismissedWaiting := addToSet s1.dismissedWaiting key
              claudeStatuses := s1.claudeStatuses.filter (fun e => decide (e.1 ≠ key))
              waitingTimers := removeTimer s1.waitingTimers key }
          | none => s1
        ({ s2 with waitingTimers := [] }, some w.id)

/-- The response of the `get_editor_state` snapshot query (the `EditorState`
interface of App.tsx). -/
structure EditorState where
  is_active : Bool
  windows : List EditorWindow
  active_index : Option Nat
deriving Repr, DecidableEq

/-- `syncActiveTab` (App.tsx lines 431-459), run on `window-focus-changed`:
skipped entirely within 200ms of the last tab click; otherwise it takes the
result of the `get_editor_state` query (an `Except` for the catch path),
maps the frontmost window through the same sort as the snapshot, and adopts
the resulting index when it differs from the current one, resynchronizing
the auto-dismiss timer on such a confirmed change. -/
def syncActiveTab (s : AppState) (now : Nat) (query : Except String EditorState) : AppState :=
  if now - s.lastTabClickTime < 200 then s
  else
    match query with
    | .error _ => s
    | .ok st =>
      match st.active_index with
      | none => s
      | some ai =>
        if st.windows.length > 0 then
          let sorted := sortWindowsByOrder st.windows s.tabOrder
          let frontmostName := (st.windows[ai]?).map EditorWindow.name
          match frontmostName.bind (fun nm => sorted.findIdx? (fun w => decide (w.name = nm))) with
          | some j =>
            if j ≠ s.activeIndex then syncWaitingTimer { s with activeIndex := j } else s
          | none => s
        else s

/-- Observable outcome of one `refreshWindows` run: the new state, the error
logged by the catch block (the failure report), and the orders written to the
persisted store (always `[]`: refresh never saves, per the source comment
"Don't save here - only save on explicit reorder"). -/
structure RefreshResult where
  state : AppState
  loggedError : Option String
  savedOrders : List (List String)
deriving Repr, DecidableEq

/-- The per-position name comparison `xs.some((w, i) => ys[i]?.name !== w.name)`
used by `refreshWindows` for both the order-changed and windows-changed
checks (with `ys[i]` possibly `undefined`). -/
def namesDiffer (xs ys : List String) : Bool :=
  (List.range xs.length).any (fun i => decide (ys[i]? ≠ xs[i]?))

/-- `refreshWindows` (App.tsx lines 391-428): load the persisted order on the
first run, query the window list (`storedOrder` and `query` stand for the two
awaited externals), sort it by the order, update the cached order and — only
when some position's name changed — the rendered list, clamping the active
index to the last valid index when it fell out of bounds.  The catch path
logs the error and leaves everything else as it was. -/
def refreshWindows (s : AppState) (storedOrder : List String)
    (query : Except String (List EditorWindow)) : RefreshResult :=
  let s0 := if s.orderLoaded = false
    then { s with tabOrder := storedOrder, orderLoaded := true }
    else s
  match query with
  | .error e => ⟨s0, some e, []⟩
  | .ok result =>
    let sorted := sortWindowsByOrder result s0.tabOrder
    let newOrder := sorted.map EditorWindow.name
    let orderChanged := newOrder.length ≠ s0.tabOrder.length ∨
      namesDiffer newOrder s0.tabOrder = true
    let s1 := if orderChanged then { s0 with tabOrder := newOrder } else s0
    let hasChanged := sorted.length ≠ s.windows.length ∨
      namesDiffer (sorted.map EditorWindow.name) (s.windows.map EditorWindow.name) = true
    if hasChanged then
      let s2 := { s1 with windows := sorted }
      if sorted.length > 0 ∧ s.activeIndex ≥ sorted.length then
        ⟨{ s2 with activeIndex := sorted.length - 1 }, none, []⟩
      else ⟨s2, none, []⟩
    else ⟨s1, none, []⟩

/-- Observable outcome of one `handleReorder` run: the new state and the
orders written to the persisted store by `saveTabOrder`. -/
structure ReorderResult where
  state : AppState
  savedOrders : List (List String)
deriving Repr, DecidableEq

/-- `handleReorder` (App.tsx lines 543-575): ignore out-of-range indices;
otherwise splice the moved window out of `fromIndex` and back in at
`toIndex`, persist the resulting name order, and shift the active index so
that it keeps pointing at the same window. -/
def handleReorder (s : AppState) (fromIndex toIndex : Nat) : ReorderResult :=
  if fromIndex ≥ s.windows.length ∨ toIndex ≥ s.windows.length then ⟨s, []⟩
  else
    match s.windows[fromIndex]? with
    | none => ⟨s, []⟩
    | some moved =>
      let newWindows := (s.windows.eraseIdx fromIndex).insertIdx toIndex moved
      let newOrder := newWindows.map EditorWindow.name
      let newActiveIndex :=
        if fromIndex = s.activeIndex then toIndex
        else if fromIndex < s.activeIndex ∧ toIndex ≥ s.activeIndex then s.activeIndex - 1
        else if fromIndex > s.activeIndex ∧ toIndex ≤ s.activeIndex then s.activeIndex + 1
        else s.activeIndex
      ⟨{ s with windows := newWindows, tabOrder := newOrder, activeIndex := newActiveIndex },
        [newOrder]⟩

/-- A concrete state used to instantiate theorems: one window named `proj`,
its project path reported `"waiting"` and already dismissed. -/
def exampleState : AppState :=
  { windows := [⟨1, "proj", "proj — file.ts"⟩]
    activeIndex := 0
    claudeStatuses := []
    claudeStatusesRef := [("/home/u/proj", "waiting")]
    dismissedWaiting := ["/home/u/proj"]
    waitingTimers := []
    tabOrder := ["proj"]
    orderLoaded := true
    lastTabClickTime := 0
    notificationEnabled := true
    isEditorActive := false }

/-- A concrete state with one completed-transition setup: raw `"generating"`,
nothing dismissed, notifications enabled, editor backgrounded. -/
def exampleState2 : AppState :=
  { windows := [⟨1, "proj", "proj — file.ts"⟩]
    activeIndex := 0
    claudeStatuses := [("/home/u/proj", "generating")]
    claudeStatusesRef := [("/home/u/proj", "generating")]
    dismissedWaiting := []
    waitingTimers := []
    tabOrder := ["proj"]
    orderLoaded := true
    lastTabClickTime := 0
    notificationEnabled := true
    isEditorActive := false }

/-- A concrete two-window state for the debounce scenario. -/
def exampleStateC4 : AppState :=
  { windows := [⟨1, "alpha", "alpha"⟩, ⟨2, "beta", "beta"⟩]
    activeIndex := 0
    claudeStatuses := []
    claudeStatusesRef := []
    dismissedWaiting := []
    waitingTimers := []
    tabOrder := ["alpha", "beta"]
    orderLoaded := true
    lastTabClickTime := 0
    notificationEnabled := true
    isEditorActive := false }

/-- The snapshot-query response used in the C4 witness: the OS still reports
window `alpha` (index 0) frontmost. -/
def exampleQueryC4 : EditorState :=
  { is_active := true
    windows := [⟨1, "alpha", "alpha"⟩, ⟨2, "beta", "beta"⟩]
    active_index := some 0 }

theorem statusOf_eq_none_of_not_mem_keys {m : StatusMap} {p : String}
    (h : p ∉ m.map Prod.fst) : statusOf m p = none := by
  induction m with
  | nil => rfl
  | cons e rest ih =>
    simp only [List.map_cons, List.mem_cons, not_or] at h
    have hne : e.1 ≠ p := fun he => h.1 he.symm
    simp only [statusOf, if_neg hne]
    exact ih h.2

theorem mem_keys_of_statusOf_eq_some {m : StatusMap} {p st : String}
    (h : statusOf m p = some st) : p ∈ m.map Prod.fst := by
  by_contra hn
  rw [statusOf_eq_none_of_not_mem_keys hn] at h
  exact Option.noConfusion h

theorem mem_of_statusOf_eq_some {m : StatusMap} {p st : String}
    (h : statusOf m p = some st) : (p, st) ∈ m := by
  induction m with
  | nil => exact Option.noConfusion h
  | cons e rest ih =>
    simp only [statusOf] at h
    by_cases he : e.1 = p
    · rw [if_pos he] at h
      have hv : e.2 = st := Option.some.inj h
      have : (p, st) = e := by
        obtain ⟨q, v⟩ := e
        cases he
        cases hv
        rfl
      rw [this]
      exact List.mem_cons_self _ _
    · rw [if_neg he] at h
      exact List.mem_cons_of_mem _ (ih h)

theorem statusOf_eq_some_of_mem {m : StatusMap} {p st : String}
    (nd : (m.map Prod.fst).Nodup) (h : (p, st) ∈ m) : statusOf m p = some st := by
  induction m with
  | nil => exact absurd h (List.not_mem_nil _)
  | cons e rest ih =>
    simp only [List.map_cons, List.nodup_cons] at nd
    rcases List.mem_cons.mp h with h1 | h1
    · rw [← h1]
      simp [statusOf]
    · have hne : e.1 ≠ p := by
        intro he
        exact nd.1 (he ▸ (List.mem_map_of_mem Prod.fst h1))
      simp only [statusOf, if_neg hne]
      exact ih nd.2 h1

theorem mem_keys_of_mem_filter_keys {f : String × String → Bool} {m : StatusMap} {p : String}
    (h : p ∈ (m.filter f).map Prod.fst) : p ∈ m.map Prod.fst := by
  rcases List.mem_map.mp h with ⟨e, hmem, hfst⟩
  exact hfst ▸ List.mem_map_of_mem Prod.fst (List.mem_of_mem_filter hmem)

theorem statusOf_filter (f : String × String → Bool) (m : StatusMap) (p : String)
    (nd : (m.map Prod.fst).Nodup) :
    statusOf (m.filter f) p =
      (statusOf m p).bind (fun st => if f (p, st) = true then some st else none) := by
  induction m with
  | nil => rfl
  | cons e rest ih =>
    obtain ⟨q, v⟩ := e
    simp only [List.map_cons, List.nodup_cons] at nd
    by_cases he : q = p
    · subst he
      have hhead : statusOf ((q, v) :: rest) q = some v := by
        simp [statusOf]
      rw [hhead, List.filter_cons]
      by_cases hf : f (q, v) = true
      · rw [if_pos hf]
        have h2 : statusOf ((q, v) :: rest.filter f) q = some v := by
          simp [statusOf]
        rw [h2]
        simp [hf]
      · rw [if_neg hf]
        have hrest : statusOf (rest.filter f) q = none :=
          statusOf_eq_none_of_not_mem_keys
            (fun hmem => nd.1 (mem_keys_of_mem_filter_keys hmem))
        rw [hrest]
        simp [hf]
    · have h1 : statusOf ((q, v) :: rest) p = statusOf rest p := by
        simp [statusOf, he]
      rw [h1, List.filter_cons]
      by_cases hf : f (q, v) = true
      · rw [if_pos hf]
        have h2 : statusOf ((q, v) :: rest.filter f) p = statusOf (rest.filter f) p := by
          simp [statusOf, he]
        rw [h2]
        exact ih nd.2
      · rw [if_neg hf]
        exact ih nd.2

theorem syncWaitingTimer_windows (s : AppState) :
    (syncWaitingTimer s).windows = s.windows := by
  unfold syncWaitingTimer
  split
  · rfl
  · split <;> rfl

theorem syncWaitingTimer_activeIndex (s : AppState) :
    (syncWaitingTimer s).activeIndex = s.activeIndex := by
  unfold syncWaitingTimer
  split
  · rfl
  · split <;> rfl

theorem syncWaitingTimer_claudeStatuses (s : AppState) :
    (syncWaitingTimer s).claudeStatuses = s.claudeStatuses := by
  unfold syncWaitingTimer
  split
  · rfl
  · split <;> rfl

theorem syncWaitingTimer_claudeStatusesRef (s : AppState) :
    (syncWaitingTimer s).claudeStatusesRef = s.claudeStatusesRef := by
  unfold syncWaitingTimer
  split
  · rfl
  · split <;> rfl

theorem syncWaitingTimer_dismissedWaiting (s : AppState) :
    (syncWaitingTimer s).dismissedWaiting = s.dismissedWaiting := by
  unfold syncWaitingTimer
  split
  · rfl
  · split <;> rfl

theorem handleClaudeStatus_state (s : AppState) (m : StatusMap) :
    (handleClaudeStatus s m).state =
      { syncWaitingTimer
          { s with claudeStatusesRef := m,
                   dismissedWaiting := pruneDismissed s.dismissedWaiting m } with
        claudeStatuses := filterDismissed m (pruneDismissed s.dismissedWaiting m) } :=
  rfl

theorem handleClaudeStatus_notifications (s : AppState) (m : StatusMap) :
    (handleClaudeStatus s m).notifications =
      (if (completedPathsOf (filterDismissed m (pruneDismissed s.dismissedWaiting m))
             s.claudeStatusesRef).length > 0 ∧
          s.notificationEnabled = true ∧ s.isEditorActive = false then
        (completedPathsOf (filterDismissed m (pruneDismissed s.dismissedWaiting m))
            s.claudeStatusesRef).map (fun p => NotificationRequest.mk (notifyTitle p) p)
      else []) :=
  rfl

theorem handleClaudeStatus_emission (s : AppState) (m : StatusMap) :
    (handleClaudeStatus s m).emission =
      (if (resetPathsOf (filterDismissed m (pruneDismissed s.dismissedWaiting m))
             s.claudeStatusesRef).length > 0 then
        ViewEmission.reset
          ((filterDismissed m (pruneDismissed s.dismissedWaiting m)).filter
            (fun e => decide (e.1 ∉ resetPathsOf
              (filterDismissed m (pruneDismissed s.dismissedWaiting m)) s.claudeStatusesRef)))
          150
          (filterDismissed m (pruneDismissed s.dismissedWaiting m))
      else ViewEmission.single (filterDismissed m (pruneDismissed s.dismissedWaiting m))) :=
  rfl


/-- C1: once a `claude-status` handler run (including the pending 150ms reset
re-emission) has completed, the stored raw map is the inbound map, the last
emitted view is the rendered view, and the rendered view holds exactly the
inbound entries that are not `"waiting"`-with-dismissed-path; entries with any
other status are never removed by dismissal. -/
theorem C1_rendered_view_eq_raw_minus_dismissed_waiting
    (s : AppState) (m : StatusMap) (p st : String) :
    (handleClaudeStatus s m).state.claudeStatusesRef = m ∧
    finalView (handleClaudeStatus s m).emission = (handleClaudeStatus s m).state.claudeStatuses ∧
    ((p, st) ∈ (handleClaudeStatus s m).state.claudeStatuses ↔
      ((p, st) ∈ m ∧
        ¬(st = "waiting" ∧ p ∈ (handleClaudeStatus s m).state.dismissedWaiting))) := by
  refine ⟨?_, ?_, ?_⟩
  · simp [handleClaudeStatus_state, syncWaitingTimer_claudeStatusesRef]
  · rw [handleClaudeStatus_emission, handleClaudeStatus_state]
    split
    · rfl
    · rfl
  · have hD : (handleClaudeStatus s m).state.dismissedWaiting =
        pruneDismissed s.dismissedWaiting m := by
      simp [handleClaudeStatus_state, syncWaitingTimer_dismissedWaiting]
    have hV : (handleClaudeStatus s m).state.claudeStatuses =
        filterDismissed m (pruneDismissed s.dismissedWaiting m) := by
      simp [handleClaudeStatus_state]
    rw [hD, hV]
    unfold filterDismissed
    simp only [List.mem_filter, decide_eq_true_eq]

/-- C2: a dismissed path whose new raw status is not `"waiting"` (including an
absent path) is removed from the dismissed set by the handler run, and its
entries in the inbound map all appear in the rendered view. -/
theorem C2_dismissal_self_clears (s : AppState) (m : StatusMap) (p : String)
    (hp : p ∈ s.dismissedWaiting) (hm : statusOf m p ≠ some "waiting") :
    p ∉ (handleClaudeStatus s m).state.dismissedWaiting ∧
    (∀ st, (p, st) ∈ m → (p, st) ∈ (handleClaudeStatus s m).state.claudeStatuses) := by
  have hD : (handleClaudeStatus s m).state.dismissedWaiting =
      pruneDismissed s.dismissedWaiting m := by
    simp [handleClaudeStatus_state, syncWaitingTimer_dismissedWaiting]
  have hV : (handleClaudeStatus s m).state.claudeStatuses =
      filterDismissed m (pruneDismissed s.dismissedWaiting m) := by
    simp [handleClaudeStatus_state]
  constructor
  · rw [hD]
    unfold pruneDismissed
    simp [List.mem_filter, hm]
  · intro st hst
    rw [hV]
    unfold filterDismissed
    rw [List.mem_filter]
    refine ⟨hst, ?_⟩
    simp only [decide_eq_true_eq]
    rintro ⟨hw, hmem⟩
    unfold pruneDismissed at hmem
    rw [List.mem_filter] at hmem
    exact hm (by simpa using hmem.2)

/-- C2 witness: the dismissed path `/home/u/proj` self-clears and rejoins the
view when the map reports it `"generating"`. -/
theorem C2_dismissal_self_clears_witness :
    "/home/u/proj" ∉
      (handleClaudeStatus exampleState [("/home/u/proj", "generating")]).state.dismissedWaiting ∧
    ("/home/u/proj", "generating") ∈
      (handleClaudeStatus exampleState [("/home/u/proj", "generating")]).state.claudeStatuses := by
  refine ⟨(C2_dismissal_self_clears exampleState [("/home/u/proj", "generating")] "/home/u/proj"
    (by decide) (by decide)).1, ?_⟩
  exact (C2_dismissal_self_clears exampleState [("/home/u/proj", "generating")] "/home/u/proj"
    (by decide) (by decide)).2 "generating" (by decide)

/-- C3 counterexample: an entry with the unrecognized status `"running"` is
*not* dropped — it is stored in the raw map and shown in the rendered view,
refuting the claim that the listener drops malformed entries per-entry. -/
theorem C3_counterexample_malformed_entry_kept :
    ("/home/u/proj", "running") ∈
      (handleClaudeStatus exampleState [("/home/u/proj", "running")]).state.claudeStatuses ∧
    ("/home/u/proj", "running") ∈
      (handleClaudeStatus exampleState [("/home/u/proj", "running")]).state.claudeStatusesRef := by
  decide

/-- C3 (amended): the listener performs no status validation: an entry whose
status is neither `"waiting"` nor `"generating"` is applied like any
non-waiting entry — it is stored in the raw map and passed through to the
rendered view, while the rest of the map is applied as usual. -/
theorem C3_amended_malformed_entries_pass_through (s : AppState) (m : StatusMap) (p st : String)
    (he : (p, st) ∈ m) (hw : st ≠ "waiting") (hg : st ≠ "generating") :
    (p, st) ∈ (handleClaudeStatus s m).state.claudeStatusesRef ∧
    (p, st) ∈ (handleClaudeStatus s m).state.claudeStatuses := by
  have hR : (handleClaudeStatus s m).state.claudeStatusesRef = m := by
    simp [handleClaudeStatus_state, syncWaitingTimer_claudeStatusesRef]
  have hV : (handleClaudeStatus s m).state.claudeStatuses =
      filterDismissed m (pruneDismissed s.dismissedWaiting m) := by
    simp [handleClaudeStatus_state]
  refine ⟨by rw [hR]; exact he, ?_⟩
  rw [hV]
  unfold filterDismissed
  rw [List.mem_filter]
  refine ⟨he, ?_⟩
  simp only [decide_eq_true_eq]
  rintro ⟨hw', -⟩
  exact hw hw'

/-- C3 witness for the amended claim, at the counterexample's input. -/
theorem C3_amended_witness :
    ("/home/u/proj2", "running") ∈
      (handleClaudeStatus exampleState [("/home/u/proj2", "running")]).state.claudeStatusesRef ∧
    ("/home/u/proj2", "running") ∈
      (handleClaudeStatus exampleState [("/home/u/proj2", "running")]).state.claudeStatuses :=
  C3_amended_malformed_entries_pass_through exampleState [("/home/u/proj2", "running")]
    "/home/u/proj2" "running" (by decide) (by decide) (by decide)

/-- C9: when the window-enumeration query fails, `refreshWindows` leaves the
rendered window list and the active index unchanged, writes nothing to the
persisted order store, and reports the failure (the logged error of the catch
block). -/
theorem C9_refresh_failure_preserves_view (s : AppState) (stored : List String) (e : String) :
    (refreshWindows s stored (Except.error e)).state.windows = s.windows ∧
    (refreshWindows s stored (Except.error e)).state.activeIndex = s.activeIndex ∧
    (refreshWindows s stored (Except.error e)).savedOrders = [] ∧
    (refreshWindows s stored (Except.error e)).loggedError = some e := by
  unfold refreshWindows
  refine ⟨?_, ?_, ?_, ?_⟩ <;> (split <;> rfl)

theorem keys_filter_sublist (f : String × String → Bool) (m : StatusMap) :
    ((m.filter f).map Prod.fst).Sublist (m.map Prod.fst) :=
  (List.filter_sublist m).map Prod.fst

theorem length_filter_eq_of_nodup (l : List String) (nd : l.Nodup) (p : String) :
    (l.filter (fun q => decide (q = p))).length = if p ∈ l then 1 else 0 := by
  induction l with
  | nil => simp
  | cons a rest ih =>
    rw [List.nodup_cons] at nd
    by_cases h : a = p
    · subst h
      have hz : (rest.filter (fun q => decide (q = a))).length = 0 := by
        rw [ih nd.2, if_neg nd.1]
      simp [List.filter_cons, hz]
    · have hmemiff : p ∈ a :: rest ↔ p ∈ rest := by
        constructor
        · intro hm
          rcases List.mem_cons.mp hm with h1 | h1
          · exact absurd h1.symm h
          · exact h1
        · exact fun hm => List.mem_cons_of_mem _ hm
      rw [List.filter_cons, if_neg (by simp [h]), ih nd.2]
      by_cases hp : p ∈ rest
      · rw [if_pos hp, if_pos (hmemiff.mpr hp)]
      · rw [if_neg hp, if_neg (fun hm => hp (hmemiff.mp hm))]

theorem mem_filter_keys_iff {f : String → Bool} {l : List String} {p : String} :
    p ∈ l.filter f ↔ p ∈ l ∧ f p = true :=
  List.mem_filter

/-- C5: per handler run, the number of notification requests issued for a path
is exactly one when that path completed (post-filter `"waiting"`, previously
raw `"generating"`), notifications are enabled and the editor is backgrounded,
and exactly zero in every other case — in particular on later maps in which
the path stays `"waiting"`, since the stored raw status is then no longer
`"generating"`. -/
theorem C5_notification_gating (s : AppState) (m : StatusMap) (p : String)
    (nd : (m.map Prod.fst).Nodup) :
    ((handleClaudeStatus s m).notifications.filter
        (fun n => decide (n.projectPath = p))).length =
      (if statusOf (handleClaudeStatus s m).state.claudeStatuses p = some "waiting" ∧
          statusOf s.claudeStatusesRef p = some "generating" ∧
          s.notificationEnabled = true ∧ s.isEditorActive = false
        then 1 else 0) := by
  have hV : (handleClaudeStatus s m).state.claudeStatuses =
      filterDismissed m (pruneDismissed s.dismissedWaiting m) := by
    simp [handleClaudeStatus_state]
  rw [hV, handleClaudeStatus_notifications]
  set F := filterDismissed m (pruneDismissed s.dismissedWaiting m) with hFdef
  set C := completedPathsOf F s.claudeStatusesRef with hCdef
  have hndF : (F.map Prod.fst).Nodup := (keys_filter_sublist _ m).nodup nd
  have hndC : C.Nodup := by
    rw [hCdef]
    unfold completedPathsOf
    exact List.Nodup.filter _ hndF
  have hmemC : p ∈ C ↔
      (statusOf F p = some "waiting" ∧ statusOf s.claudeStatusesRef p = some "generating") := by
    rw [hCdef]
    unfold completedPathsOf
    rw [List.mem_filter]
    constructor
    · rintro ⟨-, hg⟩
      exact of_decide_eq_true hg
    · rintro ⟨hw, hg⟩
      exact ⟨mem_keys_of_statusOf_eq_some hw, decide_eq_true (by exact ⟨hw, hg⟩)⟩
  split
  · rename_i hgate
    have hlen : ((C.map (fun q => NotificationRequest.mk (notifyTitle q) q)).filter
        (fun n => decide (n.projectPath = p))).length =
        (C.filter (fun q => decide (q = p))).length := by
      rw [List.filter_map]
      rw [List.length_map]
      rfl
    rw [hlen, length_filter_eq_of_nodup C hndC p]
    by_cases hc : statusOf F p = some "waiting" ∧
        statusOf s.claudeStatusesRef p = some "generating"
    · rw [if_pos (hmemC.mpr hc), if_pos ⟨hc.1, hc.2, hgate.2.1, hgate.2.2⟩]
    · rw [if_neg (fun hmem => hc (hmemC.mp hmem)),
        if_neg (fun hco => hc ⟨hco.1, hco.2.1⟩)]
  · rename_i hgate
    simp only [List.filter_nil, List.length_nil]
    by_cases hc : statusOf F p = some "waiting" ∧
        statusOf s.claudeStatusesRef p = some "generating"
    · have hmem : p ∈ C := hmemC.mpr hc
      have hpos : C.length > 0 := List.length_pos.mpr (List.ne_nil_of_mem hmem)
      by_cases hen : s.notificationEnabled = true ∧ s.isEditorActive = false
      · exact absurd ⟨hpos, hen.1, hen.2⟩ hgate
      · rw [if_neg (fun hco => hen ⟨hco.2.2.1, hco.2.2.2⟩)]
    · rw [if_neg (fun hco => hc ⟨hco.1, hco.2.1⟩)]


/-- C5 witness: the `generating → waiting` transition at a concrete state. -/
theorem C5_notification_gating_witness :
    ((handleClaudeStatus exampleState2 [("/home/u/proj", "waiting")]).notifications.filter
        (fun n => decide (n.projectPath = "/home/u/proj"))).length =
      (if statusOf (handleClaudeStatus exampleState2
              [("/home/u/proj", "waiting")]).state.claudeStatuses "/home/u/proj" =
            some "waiting" ∧
          statusOf exampleState2.claudeStatusesRef "/home/u/proj" = some "generating" ∧
          exampleState2.notificationEnabled = true ∧ exampleState2.isEditorActive = false
        then 1 else 0) :=
  C5_notification_gating exampleState2 [("/home/u/proj", "waiting")] "/home/u/proj" (by decide)

/-- C6: a `waiting → generating` raw transition makes the handler emit two
distinct views — first an interim one with the path removed, then after a
fixed 150ms delay the final view carrying the path as `"generating"` — never
a single combined update. -/
theorem C6_reset_two_phase (s : AppState) (m : StatusMap) (p : String)
    (nd : (m.map Prod.fst).Nodup)
    (hprev : statusOf s.claudeStatusesRef p = some "waiting")
    (hnew : statusOf m p = some "generating") :
    ∃ interim,
      (handleClaudeStatus s m).emission =
        ViewEmission.reset interim 150 (handleClaudeStatus s m).state.claudeStatuses ∧
      statusOf interim p = none ∧
      (p, "generating") ∈ (handleClaudeStatus s m).state.claudeStatuses ∧
      interim ≠ (handleClaudeStatus s m).state.claudeStatuses := by
  have hV : (handleClaudeStatus s m).state.claudeStatuses =
      filterDismissed m (pruneDismissed s.dismissedWaiting m) := by
    simp [handleClaudeStatus_state]
  have hgw : ("generating" : String) ≠ "waiting" := by decide
  have hF : statusOf (filterDismissed m (pruneDismissed s.dismissedWaiting m)) p =
      some "generating" := by
    unfold filterDismissed
    rw [statusOf_filter _ m p nd, hnew]
    simp [hgw]
  have hmemR : p ∈ resetPathsOf (filterDismissed m (pruneDismissed s.dismissedWaiting m))
      s.claudeStatusesRef := by
    unfold resetPathsOf
    rw [List.mem_filter]
    exact ⟨mem_keys_of_statusOf_eq_some hF, decide_eq_true ⟨hF, hprev⟩⟩
  have hpos : (resetPathsOf (filterDismissed m (pruneDismissed s.dismissedWaiting m))
      s.claudeStatusesRef).length > 0 :=
    List.length_pos.mpr (List.ne_nil_of_mem hmemR)
  have hnone : statusOf ((filterDismissed m (pruneDismissed s.dismissedWaiting m)).filter
      (fun e => decide (e.1 ∉ resetPathsOf
        (filterDismissed m (pruneDismissed s.dismissedWaiting m)) s.claudeStatusesRef))) p =
      none := by
    apply statusOf_eq_none_of_not_mem_keys
    intro hmem
    rcases List.mem_map.mp hmem with ⟨e, he, hfst⟩
    have hni := of_decide_eq_true (List.mem_filter.mp he).2
    exact hni (hfst ▸ hmemR)
  refine ⟨(filterDismissed m (pruneDismissed s.dismissedWaiting m)).filter
      (fun e => decide (e.1 ∉ resetPathsOf
        (filterDismissed m (pruneDismissed s.dismissedWaiting m)) s.claudeStatusesRef)),
    ?_, hnone, ?_, ?_⟩
  · rw [handleClaudeStatus_emission, if_pos hpos, hV]
  · rw [hV]
    exact mem_of_statusOf_eq_some hF
  · rw [hV]
    intro heq
    have h1 : statusOf ((filterDismissed m (pruneDismissed s.dismissedWaiting m)).filter
        (fun e => decide (e.1 ∉ resetPathsOf
          (filterDismissed m (pruneDismissed s.dismissedWaiting m)) s.claudeStatusesRef))) p =
        some "generating" := by
      rw [heq]
      exact hF
    rw [hnone] at h1
    exact Option.noConfusion h1

/-- C6 witness: the round-trip state with the raw map flipping to
`"generating"`. -/
theorem C6_reset_two_phase_witness :
    ∃ interim,
      (handleClaudeStatus exampleState [("/home/u/proj", "generating")]).emission =
        ViewEmission.reset interim 150
          (handleClaudeStatus exampleState
            [("/home/u/proj", "generating")]).state.claudeStatuses ∧
      statusOf interim "/home/u/proj" = none ∧
      ("/home/u/proj", "generating") ∈
        (handleClaudeStatus exampleState [("/home/u/proj", "generating")]).state.claudeStatuses ∧
      interim ≠
        (handleClaudeStatus exampleState [("/home/u/proj", "generating")]).state.claudeStatuses :=
  C6_reset_two_phase exampleState [("/home/u/proj", "generating")] "/home/u/proj"
    (by decide) (by decide) (by decide)

theorem syncWaitingTimer_timers (s : AppState) :
    (syncWaitingTimer s).waitingTimers =
      (match s.windows[s.activeIndex]? with
        | none => []
        | some aw =>
          match findWaitingEntry s.claudeStatusesRef s.dismissedWaiting aw.name with
          | some e => [(e.1, 15000)]
          | none => []) := by
  unfold syncWaitingTimer
  split
  · rfl
  · split <;> rfl

theorem mem_addToSet_self (l : List String) (p : String) : p ∈ addToSet l p := by
  unfold addToSet
  split
  · assumption
  · exact List.mem_append_right l (List.mem_singleton.mpr rfl)

theorem syncWaitingTimer_timers_none {s : AppState}
    (h : s.windows[s.activeIndex]? = none) :
    (syncWaitingTimer s).waitingTimers = [] := by
  rw [syncWaitingTimer_timers, h]

theorem syncWaitingTimer_timers_found_none {s : AppState} {aw : EditorWindow}
    (h : s.windows[s.activeIndex]? = some aw)
    (h2 : findWaitingEntry s.claudeStatusesRef s.dismissedWaiting aw.name = none) :
    (syncWaitingTimer s).waitingTimers = [] := by
  simp only [syncWaitingTimer_timers, h, h2]

theorem syncWaitingTimer_timers_found_some {s : AppState} {aw : EditorWindow}
    {e : String × String}
    (h : s.windows[s.activeIndex]? = some aw)
    (h2 : findWaitingEntry s.claudeStatusesRef s.dismissedWaiting aw.name = some e) :
    (syncWaitingTimer s).waitingTimers = [(e.1, 15000)] := by
  simp only [syncWaitingTimer_timers, h, h2]

/-- C7: after a resynchronization at most one auto-dismiss timer is pending;
one is pending exactly when some raw entry is `"waiting"`, not dismissed, and
matches the active window's name by last path segment; any pending timer has
the fixed 15s delay and is bound to such a path of the active tab.  When a
timer for a path fires while the path is still raw-`"waiting"`, the path is
added to the dismissed set and removed from the rendered view; otherwise
firing leaves the dismissed set, the rendered view and the raw map unchanged. -/
theorem C7_auto_dismiss_timer_invariant (s : AppState) (p : String) :
    (syncWaitingTimer s).waitingTimers.length ≤ 1 ∧
    ((syncWaitingTimer s).waitingTimers ≠ [] ↔
      ∃ aw, s.windows[s.activeIndex]? = some aw ∧
        ∃ e ∈ s.claudeStatusesRef, e.2 = "waiting" ∧ e.1 ∉ s.dismissedWaiting ∧
          lastSegment e.1 = aw.name) ∧
    (∀ q d, (q, d) ∈ (syncWaitingTimer s).waitingTimers →
      d = 15000 ∧ (q, "waiting") ∈ s.claudeStatusesRef ∧ q ∉ s.dismissedWaiting ∧
        ∃ aw, s.windows[s.activeIndex]? = some aw ∧ lastSegment q = aw.name) ∧
    (statusOf s.claudeStatusesRef p = some "waiting" →
      p ∈ (fireWaitingTimer s p).dismissedWaiting ∧
      statusOf (fireWaitingTimer s p).claudeStatuses p = none) ∧
    (statusOf s.claudeStatusesRef p ≠ some "waiting" →
      (fireWaitingTimer s p).dismissedWaiting = s.dismissedWaiting ∧
      (fireWaitingTimer s p).claudeStatuses = s.claudeStatuses ∧
      (fireWaitingTimer s p).claudeStatusesRef = s.claudeStatusesRef) := by
  have hfire1 : statusOf s.claudeStatusesRef p = some "waiting" →
      p ∈ (fireWaitingTimer s p).dismissedWaiting ∧
      statusOf (fireWaitingTimer s p).claudeStatuses p = none := by
    intro hw
    unfold fireWaitingTimer
    rw [if_pos hw]
    constructor
    · exact mem_addToSet_self _ _
    · apply statusOf_eq_none_of_not_mem_keys
      intro hmem
      rcases List.mem_map.mp hmem with ⟨e, he, hfst⟩
      exact of_decide_eq_true (List.mem_filter.mp he).2 hfst
  have hfire2 : statusOf s.claudeStatusesRef p ≠ some "waiting" →
      (fireWaitingTimer s p).dismissedWaiting = s.dismissedWaiting ∧
      (fireWaitingTimer s p).claudeStatuses = s.claudeStatuses ∧
      (fireWaitingTimer s p).claudeStatusesRef = s.claudeStatusesRef := by
    intro hw
    unfold fireWaitingTimer
    rw [if_neg hw]
    exact ⟨rfl, rfl, rfl⟩
  rcases h1 : s.windows[s.activeIndex]? with _ | aw
  · have hT := syncWaitingTimer_timers_none h1
    rw [hT]
    refine ⟨by simp, ?_, by simp, hfire1, hfire2⟩
    simp only [ne_eq, not_true_eq_false, false_iff, not_exists]
    rintro aw ⟨haw, -⟩
    exact Option.noConfusion haw
  · rcases h2 : findWaitingEntry s.claudeStatusesRef s.dismissedWaiting aw.name with _ | e
    · have hT := syncWaitingTimer_timers_found_none h1 h2
      rw [hT]
      unfold findWaitingEntry at h2
      refine ⟨by simp, ?_, by simp, hfire1, hfire2⟩
      simp only [ne_eq, not_true_eq_false, false_iff, not_exists]
      rintro aw' ⟨haw', e, hmem, hw, hd, hseg⟩
      have haw2 : aw' = aw := by
        injection haw' with h
        exact h.symm
      subst haw2
      exact List.find?_eq_none.mp h2 e hmem (decide_eq_true ⟨hw, hd, hseg⟩)
    · have hT := syncWaitingTimer_timers_found_some h1 h2
      rw [hT]
      unfold findWaitingEntry at h2
      have hprop0 := List.find?_some h2
      simp only [decide_eq_true_eq] at hprop0
      have hprop : e.2 = "waiting" ∧ e.1 ∉ s.dismissedWaiting ∧ lastSegment e.1 = aw.name :=
        hprop0
      have hmem2 := List.mem_of_find?_eq_some h2
      refine ⟨by simp, ?_, ?_, hfire1, hfire2⟩
      · constructor
        · intro _
          exact ⟨aw, rfl, e, hmem2, hprop⟩
        · intro _
          exact List.cons_ne_nil _ _
      · intro q d hmem
        have heq : (q, d) = (e.1, 15000) := List.mem_singleton.mp hmem
        have hq : q = e.1 := congrArg Prod.fst heq
        have hd : d = 15000 := congrArg Prod.snd heq
        refine ⟨hd, ?_, ?_, aw, rfl, ?_⟩
        · have he2 : e = (e.1, e.2) := rfl
          rw [hq, ← hprop.1]
          rw [he2] at hmem2
          exact hmem2
        · rw [hq]
          exact hprop.2.1
        · rw [hq]
          exact hprop.2.2

/-- C7 witness: firing the timer for a still-waiting path at a concrete state
dismisses it and hides it from the view. -/
theorem C7_auto_dismiss_timer_invariant_witness :
    "/home/u/proj" ∈ (fireWaitingTimer exampleState "/home/u/proj").dismissedWaiting ∧
    statusOf (fireWaitingTimer exampleState "/home/u/proj").claudeStatuses "/home/u/proj" =
      none :=
  (C7_auto_dismiss_timer_invariant exampleState "/home/u/proj").2.2.2.1 (by decide)

theorem handleTabClick_fields (s : AppState) (i t : Nat) (b : Bool)
    (hi : i ≠ s.activeIndex) :
    (handleTabClick s i t b).1.activeIndex = i ∧
    (handleTabClick s i t b).1.lastTabClickTime = t ∧
    (handleTabClick s i t b).1.tabOrder = s.tabOrder := by
  refine ⟨?_, ?_, ?_⟩ <;>
    (simp only [handleTabClick]
     rw [if_neg hi]
     repeat' (first | rfl | split))

theorem syncActiveTab_debounced (s : AppState) (now : Nat) (q : Except String EditorState)
    (h : now - s.lastTabClickTime < 200) :
    syncActiveTab s now q = s := by
  unfold syncActiveTab
  rw [if_pos h]

theorem syncActiveTab_adopts {s : AppState} {now : Nat} {st : EditorState} {ai j : Nat}
    (hnl : ¬(now - s.lastTabClickTime < 200))
    (hai : st.active_index = some ai)
    (hwin : st.windows.length > 0)
    (hfind : ((st.windows[ai]?).map EditorWindow.name).bind
        (fun nm => (sortWindowsByOrder st.windows s.tabOrder).findIdx?
          (fun w => decide (w.name = nm))) = some j)
    (hj : j ≠ s.activeIndex) :
    syncActiveTab s now (Except.ok st) = syncWaitingTimer { s with activeIndex := j } := by
  unfold syncActiveTab
  rw [if_neg hnl]
  simp only [hai, if_pos hwin, hfind, if_pos hj]

/-- C4: after `UserClickedTab(i)` (which sets the active index to `i` and
records its timestamp), an `OSFocusChanged` sync strictly less than 200ms
later is wholly ignored (the state is returned untouched), while a sync at or
after 200ms whose frontmost window maps under the current sort to an index
`j` different from the current active index sets the active index to `j`. -/
theorem C4_click_debounce (s : AppState) (i t now : Nat) (b : Bool)
    (hi : i ≠ s.activeIndex) (q : Except String EditorState) :
    ((handleTabClick s i t b).1.activeIndex = i ∧
      (handleTabClick s i t b).1.lastTabClickTime = t) ∧
    (now - t < 200 →
      syncActiveTab (handleTabClick s i t b).1 now q = (handleTabClick s i t b).1) ∧
    (∀ st ai j, 200 ≤ now - t → q = Except.ok st → st.active_index = some ai →
      st.windows.length > 0 →
      ((st.windows[ai]?).map EditorWindow.name).bind
        (fun nm => (sortWindowsByOrder st.windows (handleTabClick s i t b).1.tabOrder).findIdx?
          (fun w => decide (w.name = nm))) = some j →
      j ≠ (handleTabClick s i t b).1.activeIndex →
      (syncActiveTab (handleTabClick s i t b).1 now q).activeIndex = j) := by
  obtain ⟨hA, hT, hO⟩ := handleTabClick_fields s i t b hi
  refine ⟨⟨hA, hT⟩, ?_, ?_⟩
  · intro hlt
    exact syncActiveTab_debounced _ now q (by rw [hT]; exact hlt)
  · intro st ai j h200 hq hai hwin hfind hj
    subst hq
    rw [syncActiveTab_adopts (by rw [hT]; omega) hai hwin hfind hj,
      syncWaitingTimer_activeIndex]



/-- C4 witness: a click on tab 1 at t=1000; the focus echo at 1100 is ignored,
the one at 1300 adopts the frontmost window's sorted index 0. -/
theorem C4_click_debounce_witness :
    syncActiveTab (handleTabClick exampleStateC4 1 1000 true).1 1100
        (Except.ok exampleQueryC4) = (handleTabClick exampleStateC4 1 1000 true).1 ∧
    (syncActiveTab (handleTabClick exampleStateC4 1 1000 true).1 1300
        (Except.ok exampleQueryC4)).activeIndex = 0 := by
  have h1 := C4_click_debounce exampleStateC4 1 1000 1100 true (by decide)
    (Except.ok exampleQueryC4)
  have h2 := C4_click_debounce exampleStateC4 1 1000 1300 true (by decide)
    (Except.ok exampleQueryC4)
  exact ⟨h1.2.1 (by decide),
    h2.2.2 exampleQueryC4 0 0 (by decide) rfl (by decide) (by decide) (by decide) (by decide)⟩

theorem getElem?_insertIdx_cases {α : Type _} (n k : Nat) (x : α) (l : List α)
    (hn : n ≤ l.length) :
    (l.insertIdx n x)[k]? =
      if k < n then l[k]? else if k = n then some x else l[k - 1]? := by
  induction n generalizing l k with
  | zero =>
    cases k with
    | zero => simp
    | succ k' => simp
  | succ n ih =>
    cases l with
    | nil => exact absurd hn (by simp)
    | cons hd tl =>
      cases k with
      | zero => simp [List.insertIdx_succ_cons]
      | succ k' =>
        rw [List.insertIdx_succ_cons]
        have hn' : n ≤ tl.length := by simpa using hn
        rw [List.getElem?_cons_succ, ih k' tl hn']
        by_cases h1 : k' < n
        · simp [h1, Nat.succ_lt_succ_iff]
        · by_cases h2 : k' = n
          · have hcond1 : ¬(k' + 1 < n + 1) := by omega
            have hcond2 : k' + 1 = n + 1 := by omega
            simp only [if_neg h1, if_pos h2, if_neg hcond1, if_pos hcond2]
          · have hcond1 : ¬(k' + 1 < n + 1) := by omega
            have hcond2 : ¬(k' + 1 = n + 1) := by omega
            simp only [if_neg h1, if_neg h2, if_neg hcond1, if_neg hcond2]
            have hk1 : k' + 1 - 1 = (k' - 1) + 1 := by omega
            rw [hk1, List.getElem?_cons_succ]

/-- C10: reordering windows keeps the same window active: the window found at
the active index after `handleReorder` is named like the one at the active
index before it, and moving the active tab itself puts it at `toIndex`. -/
theorem C10_reorder_preserves_active_window (s : AppState) (f t : Nat)
    (hf : f < s.windows.length) (ht : t < s.windows.length)
    (ha : s.activeIndex < s.windows.length) :
    ((handleReorder s f t).state.windows[(handleReorder s f t).state.activeIndex]?).map
        EditorWindow.name =
      (s.windows[s.activeIndex]?).map EditorWindow.name ∧
    (f = s.activeIndex → (handleReorder s f t).state.activeIndex = t) := by
  have hguard : ¬(f ≥ s.windows.length ∨ t ≥ s.windows.length) := by omega
  have hsome : s.windows[f]? = some (s.windows.get ⟨f, hf⟩) := by
    rw [List.getElem?_eq_getElem hf, List.get_eq_getElem]
  have hchar : handleReorder s f t =
      ⟨{ s with
          windows := (s.windows.eraseIdx f).insertIdx t (s.windows.get ⟨f, hf⟩),
          tabOrder := ((s.windows.eraseIdx f).insertIdx t
            (s.windows.get ⟨f, hf⟩)).map EditorWindow.name,
          activeIndex :=
            if f = s.activeIndex then t
            else if f < s.activeIndex ∧ t ≥ s.activeIndex then s.activeIndex - 1
            else if f > s.activeIndex ∧ t ≤ s.activeIndex then s.activeIndex + 1
            else s.activeIndex },
        [((s.windows.eraseIdx f).insertIdx t
          (s.windows.get ⟨f, hf⟩)).map EditorWindow.name]⟩ := by
    unfold handleReorder
    rw [if_neg hguard, hsome]
  have hlenE : (s.windows.eraseIdx f).length = s.windows.length - 1 := by
    rw [List.length_eraseIdx]
    rw [if_pos hf]
  have hins : ∀ k, (((s.windows.eraseIdx f).insertIdx t (s.windows.get ⟨f, hf⟩))[k]?) =
      if k < t then (s.windows.eraseIdx f)[k]?
      else if k = t then some (s.windows.get ⟨f, hf⟩)
      else (s.windows.eraseIdx f)[k - 1]? :=
    fun k => getElem?_insertIdx_cases t k _ _ (by omega)
  have herase : ∀ j : Nat, (s.windows.eraseIdx f)[j]? =
      if j < f then s.windows[j]? else s.windows[j + 1]? :=
    fun j => List.getElem?_eraseIdx s.windows f j
  have hidx : (((s.windows.eraseIdx f).insertIdx t (s.windows.get ⟨f, hf⟩))[
      (if f = s.activeIndex then t
        else if f < s.activeIndex ∧ t ≥ s.activeIndex then s.activeIndex - 1
        else if f > s.activeIndex ∧ t ≤ s.activeIndex then s.activeIndex + 1
        else s.activeIndex)]?) = s.windows[s.activeIndex]? := by
    by_cases hfa : f = s.activeIndex
    · rw [if_pos hfa, hins t, if_neg (lt_irrefl t), if_pos rfl, ← hfa, hsome]
    · rw [if_neg hfa]
      by_cases hc1 : f < s.activeIndex ∧ t ≥ s.activeIndex
      · rw [if_pos hc1, hins (s.activeIndex - 1), if_pos (by omega),
          herase (s.activeIndex - 1), if_neg (by omega)]
        have h1 : s.activeIndex - 1 + 1 = s.activeIndex := by omega
        rw [h1]
      · rw [if_neg hc1]
        by_cases hc2 : f > s.activeIndex ∧ t ≤ s.activeIndex
        · rw [if_pos hc2, hins (s.activeIndex + 1), if_neg (by omega), if_neg (by omega)]
          have h1 : s.activeIndex + 1 - 1 = s.activeIndex := rfl
          rw [h1, herase s.activeIndex, if_pos (by omega)]
        · rw [if_neg hc2]
          by_cases hfa2 : f < s.activeIndex
          · have hta : t < s.activeIndex := by omega
            rw [hins s.activeIndex, if_neg (by omega), if_neg (by omega),
              herase (s.activeIndex - 1), if_neg (by omega)]
            have h1 : s.activeIndex - 1 + 1 = s.activeIndex := by omega
            rw [h1]
          · have hfa3 : s.activeIndex < f := by omega
            have hta : s.activeIndex < t := by omega
            rw [hins s.activeIndex, if_pos hta, herase s.activeIndex, if_pos hfa3]
  constructor
  · rw [hchar]
    exact congrArg (Option.map EditorWindow.name) hidx
  · intro hfa
    rw [hchar]
    show (if f = s.activeIndex then t
      else if f < s.activeIndex ∧ t ≥ s.activeIndex then s.activeIndex - 1
      else if f > s.activeIndex ∧ t ≤ s.activeIndex then s.activeIndex + 1
      else s.activeIndex) = t
    rw [if_pos hfa]

/-- C10 witness: moving the first window behind the active one at a concrete
state keeps the active window's name in place. -/
theorem C10_reorder_preserves_active_window_witness :
    ((handleReorder exampleStateC4 0 1).state.windows[
        (handleReorder exampleStateC4 0 1).state.activeIndex]?).map EditorWindow.name =
      (exampleStateC4.windows[exampleStateC4.activeIndex]?).map EditorWindow.name ∧
    (0 = exampleStateC4.activeIndex → (handleReorder exampleStateC4 0 1).state.activeIndex = 1) :=
  C10_reorder_preserves_active_window exampleStateC4 0 1 (by decide) (by decide) (by decide)

theorem cmpWeights_swap : ∀ a b : List Nat, cmpWeights b a = -(cmpWeights a b) := by
  intro a
  induction a with
  | nil =>
    intro b
    cases b with
    | nil => rfl
    | cons y ys => rfl
  | cons x xs ih =>
    intro b
    cases b with
    | nil => rfl
    | cons y ys =>
      simp only [cmpWeights]
      by_cases hxy : x < y
      · rw [if_neg (show ¬ y < x by omega), if_pos hxy, if_pos hxy]
        decide
      · by_cases hyx : y < x
        · rw [if_pos hyx, if_neg hxy, if_pos hyx]
        · rw [if_neg hyx, if_neg hxy, if_neg hxy, if_neg hyx]
          exact ih ys

theorem cmpWeights_trans_nonpos :
    ∀ a b c : List Nat, cmpWeights a b ≤ 0 → cmpWeights b c ≤ 0 → cmpWeights a c ≤ 0 := by
  intro a
  induction a with
  | nil =>
    intro b c _ _
    cases c with
    | nil => exact le_refl 0
    | cons z zs => exact (by decide : (-1 : Int) ≤ 0)
  | cons x xs ih =>
    intro b c h1 h2
    cases b with
    | nil => exact absurd h1 (by simp [cmpWeights])
    | cons y ys =>
      cases c with
      | nil => exact absurd h2 (by simp [cmpWeights])
      | cons z zs =>
        simp only [cmpWeights] at h1 h2 ⊢
        by_cases hxy : x < y
        · by_cases hyz : y < z
          · rw [if_pos (show x < z by omega)]
            decide
          · by_cases hzy : z < y
            · rw [if_neg hyz, if_pos hzy] at h2
              exact absurd h2 (by decide)
            · have hyz2 : y = z := by omega
              rw [if_pos (show x < z by omega)]
              decide
        · by_cases hyx : y < x
          · rw [if_neg hxy, if_pos hyx] at h1
            exact absurd h1 (by decide)
          · have hxy2 : x = y := by omega
            rw [if_neg hxy, if_neg hyx] at h1
            by_cases hyz : y < z
            · rw [if_pos (show x < z by omega)]
              decide
            · by_cases hzy : z < y
              · rw [if_neg hyz, if_pos hzy] at h2
                exact absurd h2 (by decide)
              · have hyz2 : y = z := by omega
                rw [if_neg hyz, if_neg hzy] at h2
                rw [if_neg (show ¬ x < z by omega), if_neg (show ¬ z < x by omega)]
                exact ih ys zs h1 h2

theorem localeCompare_swap (a b : String) : localeCompare b a = -(localeCompare a b) :=
  cmpWeights_swap (collationKey a) (collationKey b)

theorem localeCompare_trans_nonpos {a b c : String}
    (h1 : localeCompare a b ≤ 0) (h2 : localeCompare b c ≤ 0) : localeCompare a c ≤ 0 :=
  cmpWeights_trans_nonpos _ _ _ h1 h2

theorem windowLe_total (order : List String) (a b : EditorWindow) :
    windowCompare order a b ≤ 0 ∨ windowCompare order b a ≤ 0 := by
  unfold windowCompare
  rcases ha : orderRank order a.name with _ | i <;>
    rcases hb : orderRank order b.name with _ | j <;>
    simp only []
  · have := localeCompare_swap a.name b.name
    omega
  · right
    decide
  · left
    decide
  · omega

theorem windowLe_trans (order : List String) (a b c : EditorWindow)
    (h1 : windowCompare order a b ≤ 0) (h2 : windowCompare order b c ≤ 0) :
    windowCompare order a c ≤ 0 := by
  unfold windowCompare at h1 h2 ⊢
  rcases ha : orderRank order a.name with _ | i <;>
    rcases hb : orderRank order b.name with _ | j <;>
    rcases hc : orderRank order c.name with _ | k <;>
    simp only [ha, hb, hc] at h1 h2 ⊢
  · exact localeCompare_trans_nonpos h1 h2
  · exact absurd h2 (by decide)
  · exact absurd h1 (by decide)
  · exact absurd h1 (by decide)
  · decide
  · exact absurd h2 (by decide)
  · decide
  · omega

/-- C8 counterexample: with an empty persisted order both windows are
unranked, and the code sorts them `["a", "B"]` by its locale-aware tie-break,
while ordinal (code-point) comparison — which the claim prescribes — would
put `"B"` (66) before `"a"` (97): the produced order is not ordinally sorted. -/
theorem C8_counterexample_tiebreak_not_ordinal :
    (sortWindowsByOrder [⟨2, "B", "B"⟩, ⟨1, "a", "a"⟩] []).map EditorWindow.name = ["a", "B"] ∧
    orderRank [] "a" = none ∧ orderRank [] "B" = none ∧
    ¬ ordinalStringLe "a" "B" := by
  decide

/-- C8 (amended): the sort produces a permutation of the snapshot in which
ranked windows precede unranked ones and appear in rank order, while unranked
windows are ordered alphabetically by the *locale-aware* comparison
(`localeCompare`, here its ICU-root model) rather than by ordinal
comparison. -/
theorem C8_amended_sort_properties (ws : List EditorWindow) (order : List String) :
    (sortWindowsByOrder ws order).Perm ws ∧
    (∀ i j (hi : i < (sortWindowsByOrder ws order).length)
        (hj : j < (sortWindowsByOrder ws order).length), i < j →
      (orderRank order ((sortWindowsByOrder ws order).get ⟨i, hi⟩).name = none →
        orderRank order ((sortWindowsByOrder ws order).get ⟨j, hj⟩).name = none) ∧
      (∀ ra rb,
        orderRank order ((sortWindowsByOrder ws order).get ⟨i, hi⟩).name = some ra →
        orderRank order ((sortWindowsByOrder ws order).get ⟨j, hj⟩).name = some rb →
        ra ≤ rb) ∧
      (orderRank order ((sortWindowsByOrder ws order).get ⟨i, hi⟩).name = none →
        localeCompare ((sortWindowsByOrder ws order).get ⟨i, hi⟩).name
          ((sortWindowsByOrder ws order).get ⟨j, hj⟩).name ≤ 0)) := by
  haveI hTot : IsTotal EditorWindow (fun a b => windowCompare order a b ≤ 0) :=
    ⟨windowLe_total order⟩
  haveI hTrans : IsTrans EditorWindow (fun a b => windowCompare order a b ≤ 0) :=
    ⟨windowLe_trans order⟩
  constructor
  · exact List.perm_insertionSort _ ws
  · intro i j hi hj hij
    have hsort : List.Sorted (fun a b => windowCompare order a b ≤ 0)
        (sortWindowsByOrder ws order) :=
      List.sorted_insertionSort _ ws
    have hrel : windowCompare order ((sortWindowsByOrder ws order).get ⟨i, hi⟩)
        ((sortWindowsByOrder ws order).get ⟨j, hj⟩) ≤ 0 :=
      List.Sorted.rel_get_of_lt hsort hij
    unfold windowCompare at hrel
    rcases hri : orderRank order ((sortWindowsByOrder ws order).get ⟨i, hi⟩).name with _ | ri <;>
      rcases hrj : orderRank order ((sortWindowsByOrder ws order).get ⟨j, hj⟩).name
        with _ | rj <;>
      simp only [hri, hrj] at hrel
    · exact ⟨fun _ => rfl, fun ra rb hra _ => Option.noConfusion hra, fun _ => hrel⟩
    · exact absurd hrel (by decide)
    · exact ⟨fun h => Option.noConfusion h,
        fun ra rb _ hrb => Option.noConfusion hrb,
        fun h => Option.noConfusion h⟩
    · refine ⟨fun h => Option.noConfusion h, ?_, fun h => Option.noConfusion h⟩
      intro ra rb hra hrb
      have h1 : ri = ra := Option.some.inj hra
      have h2 : rj = rb := Option.some.inj hrb
      omega

/-- C8 witness for the amended claim: at the counterexample's input the sort
is a permutation and the unranked pair is ordered by the locale-aware
comparison. -/
theorem C8_amended_sort_properties_witness :
    (sortWindowsByOrder [⟨2, "B", "B"⟩, ⟨1, "a", "a"⟩] []).Perm
      [⟨2, "B", "B"⟩, ⟨1, "a", "a"⟩] ∧
    localeCompare
      ((sortWindowsByOrder [⟨2, "B", "B"⟩, ⟨1, "a", "a"⟩] []).get ⟨0, by decide⟩).name
      ((sortWindowsByOrder [⟨2, "B", "B"⟩, ⟨1, "a", "a"⟩] []).get ⟨1, by decide⟩).name ≤ 0 := by
  have h := C8_amended_sort_properties [⟨2, "B", "B"⟩, ⟨1, "a", "a"⟩] []
  exact ⟨h.1, (h.2 0 1 (by decide) (by decide) (by decide)).2.2 (by decide)⟩
